import Mathlib

/-!
Verification of the daily breakout backtest in `final_script.py`.

The core of the program (lines 78-128 of `final_script.py`) partitions an
intraday price series into per-day sessions, classifies each session as an
upside/downside breakout (Follow/Fake) or Neutral against the day's first
candle, sizes a position by integer division of the running capital by the
entry price, and folds the resulting profit/loss into the capital carried to
the next day.  A summarizer then derives trade counts, a win rate, the final
capital and the profit.  The multi-symbol driver (lines 37-186) wraps each
symbol in a catch-and-continue boundary.

Numbers are modelled as rationals (the Python code uses floats; all claims
are algebraic relations, not rounding facts).  Python's `int(x)` truncates
toward zero, which on rationals is `Int.tdiv` of numerator by denominator.
-/

/-- One intraday bar, mirroring the cleaned columns
`["Date", "Time", "Close", "High", "Low", "Open", "Volume"]`
(line 67 of `final_script.py`).  `Date`/`Time` are abstract ordered keys. -/
structure PricePoint where
  Date : Nat
  Time : Nat
  Close : ℚ
  High : ℚ
  Low : ℚ
  Open : ℚ
  Volume : ℚ
deriving DecidableEq, Repr

/-- The five trend labels assigned at lines 90, 100 and 106 of
`final_script.py` ("Upside Follow", "Upside Fake", "Downside Follow",
"Downside Fake", "Neutral"). -/
inductive Trend where
  | upsideFollow
  | upsideFake
  | downsideFollow
  | downsideFake
  | neutral
deriving DecidableEq, Repr

/-- One row of the per-day results list built at lines 111-119 of
`final_script.py`: keys `Date, Trend, Entry, Exit, Quantity, PnL, Capital`. -/
structure Trade where
  Date : Nat
  Trend : Trend
  Entry : Option ℚ
  Exit : ℚ
  Quantity : Int
  PnL : ℚ
  Capital : ℚ
deriving DecidableEq, Repr

/-- Python's `int(x)` on a real number: truncation toward zero.  On a
rational this is truncating division of the numerator by the denominator. -/
def pyInt (q : ℚ) : Int := Int.tdiv q.num q.den

/-- Line 84, `day_data = data[data["Date"] == day]`: the ordered
subsequence of bars belonging to one date. -/
def dayGroup (data : List PricePoint) (d : Nat) : List PricePoint :=
  data.filter (fun p => p.Date = d)

/-- Lines 86-109 of `final_script.py`: one day's classification, sizing and
capital update.  The reference candle is the first bar of the group
(`first_candles = data.groupby("Date").first()`, line 78), `last_close` the
`Close` of the group's last bar (line 88).  Breakout tests are the
`.any()` comparisons of lines 97 and 103; quantity is
`int(current_capital / entry)` (lines 99, 105); the capital update is
`current_capital += pnl` (line 109).  Returns `none` only for an empty
group, which the caller never produces (Python never builds a session for a
date with no bars).  Rational division by a zero entry yields 0 where
Python would raise `ZeroDivisionError`; sessions with a zero reference
price are outside the spec's domain (its `InvalidPrice` condition). -/
def processDay (capital : ℚ) (d : Nat) (g : List PricePoint) : Option Trade :=
  match g.head?, g.getLast? with
  | some first, some lastP =>
    let firstHigh := first.High
    let firstLow := first.Low
    let lastClose := lastP.Close
    if ∃ p ∈ g, p.High > firstHigh then
      let entry := firstHigh
      let qty := pyInt (capital / entry)
      let trend := if lastClose > firstHigh then Trend.upsideFollow else Trend.upsideFake
      let pnl := (lastClose - entry) * (qty : ℚ)
      some ⟨d, trend, some entry, lastClose, qty, pnl, capital + pnl⟩
    else if ∃ p ∈ g, p.Low < firstLow then
      let entry := firstLow
      let qty := pyInt (capital / entry)
      let trend := if lastClose < firstLow then Trend.downsideFollow else Trend.downsideFake
      let pnl := (entry - lastClose) * (qty : ℚ)
      some ⟨d, trend, some entry, lastClose, qty, pnl, capital + pnl⟩
    else
      some ⟨d, Trend.neutral, none, lastClose, 0, 0, capital + 0⟩
  | _, _ => none

/-- First-occurrence deduplication of the date keys. -/
def dedupDates : List Nat → List Nat
  | [] => []
  | d :: ds => d :: (dedupDates ds).filter (fun x => x ≠ d)

/-- Insertion step of the sort used to model `groupby`'s sorted keys. -/
def insertDate (d : Nat) : List Nat → List Nat
  | [] => [d]
  | x :: xs => if d ≤ x then d :: x :: xs else x :: insertDate d xs

/-- Insertion sort on date keys. -/
def sortDates : List Nat → List Nat
  | [] => []
  | d :: ds => insertDate d (sortDates ds)

/-- The distinct dates of the series in ascending order:
`data.groupby("Date")` (line 78) iterates its groups with sorted keys. -/
def sessionDates (data : List PricePoint) : List Nat :=
  sortDates (dedupDates (data.map (fun p => p.Date)))

/-- The per-day loop of lines 82-119: a left fold threading
`current_capital` (initialized at line 80) through `processDay` and
collecting the result rows in order.  Returns the trade list and the
capital left after the last day. -/
def simFold (data : List PricePoint) (cap : ℚ) : List Nat → List Trade × ℚ
  | [] => ([], cap)
  | d :: ds =>
    match processDay cap d (dayGroup data d) with
    | some t =>
      let r := simFold data t.Capital ds
      (t :: r.1, r.2)
    | none => simFold data cap ds

/-- The full trade log (`results`, line 79) for a series and an initial
capital. -/
def trades (data : List PricePoint) (init : ℚ) : List Trade :=
  (simFold data init (sessionDates data)).1

/-- Line 122: `final_capital = current_capital` after the loop. -/
def finalCapital (data : List PricePoint) (init : ℚ) : ℚ :=
  (simFold data init (sessionDates data)).2

/-- Line 123: `total_profit = final_capital - initial_capital`. -/
def totalProfit (data : List PricePoint) (init : ℚ) : ℚ :=
  finalCapital data init - init

/-- The capital carried into trade `i` of a trade log: the previous trade's
`Capital`, or the initial capital for the first trade (the spec's
`CapitalAfter(-1) = InitialCapital`). -/
def capBefore (init : ℚ) (ts : List Trade) : Nat → ℚ
  | 0 => init
  | j + 1 =>
    match ts[j]? with
    | some t => t.Capital
    | none => init

/-- Lines 125 and 127: the number of trades carrying one trend label,
`summary.get(label, 0)` over `trend_df["Trend"].value_counts()`. -/
def countTrend (ts : List Trade) (tr : Trend) : Nat :=
  (ts.filter (fun t => t.Trend = tr)).length

/-- Line 126: `total_trades = len(trend_df)`. -/
def totalTrades (ts : List Trade) : Nat := ts.length

/-- Line 127, `follow_trades`: Upside Follow count plus Downside Follow
count. -/
def followTrades (ts : List Trade) : Nat :=
  countTrend ts Trend.upsideFollow + countTrend ts Trend.downsideFollow

/-- Line 128: `win_rate = (follow_trades / total_trades * 100) if
total_trades > 0 else 0`. -/
def winRate (ts : List Trade) : ℚ :=
  if totalTrades ts > 0 then
    (followTrades ts : ℚ) / (totalTrades ts : ℚ) * 100
  else 0

/-- Modelled from the spec (glossary "Win rate" and §8): the win rate with
Neutral (no-decision) days excluded from the denominator.  Stated only to
be compared against the `winRate` the code computes. -/
def winRateDecisionOnly (ts : List Trade) : ℚ :=
  let decisions := totalTrades ts - countTrend ts Trend.neutral
  if decisions > 0 then (followTrades ts : ℚ) / (decisions : ℚ) * 100 else 0

/-- Python's `round(x, 2)` (banker's rounding to two decimals), used at
lines 179-182 when building the master row. -/
def roundHalfEven (q : ℚ) : Int :=
  if q - ⌊q⌋ < 1 / 2 then ⌊q⌋
  else if q - ⌊q⌋ > 1 / 2 then ⌊q⌋ + 1
  else if 2 ∣ ⌊q⌋ then ⌊q⌋ else ⌊q⌋ + 1

/-- Python `round(x, 2)` on a rational. -/
def round2 (q : ℚ) : ℚ := (roundHalfEven (q * 100) : ℚ) / 100

/-- One row of `master_results` (lines 172-183). -/
structure SymbolSummary where
  Ticker : String
  TotalTrades : Nat
  UpsideFollow : Nat
  DownsideFollow : Nat
  UpsideFake : Nat
  DownsideFake : Nat
  WinRatePct : ℚ
  FinalCapital : ℚ
  Profit : ℚ
  TotalProfitYearEnd : ℚ
deriving DecidableEq, Repr

/-- Lines 121-128 and 172-183: the summary row a successfully processed
symbol contributes to `master_results`. -/
def mkSummary (init : ℚ) (ticker : String) (series : List PricePoint) : SymbolSummary :=
  let ts := trades series init
  let fc := finalCapital series init
  { Ticker := ticker
    TotalTrades := totalTrades ts
    UpsideFollow := countTrend ts Trend.upsideFollow
    DownsideFollow := countTrend ts Trend.downsideFollow
    UpsideFake := countTrend ts Trend.upsideFake
    DownsideFake := countTrend ts Trend.downsideFake
    WinRatePct := round2 (winRate ts)
    FinalCapital := round2 fc
    Profit := round2 (fc - init)
    TotalProfitYearEnd := round2 (fc - init) }

/-- What the external fetch (`yf.download`, line 42) hands the per-symbol
pipeline: either the body raised somewhere (caught by the `except` of
line 185) or a — possibly empty — price series. -/
inductive FetchResult where
  | failed
  | ok (series : List PricePoint)
deriving DecidableEq

/-- The body of the per-ticker loop (lines 38-183): a raised error is
caught and contributes nothing; an empty series hits the `data.empty`
`continue` (lines 50-52) and contributes nothing; otherwise the symbol is
processed and its summary row is produced. -/
def processSymbol (init : ℚ) (ticker : String) : FetchResult → Option SymbolSummary
  | FetchResult.failed => none
  | FetchResult.ok series =>
    if series = [] then none else some (mkSummary init ticker series)

/-- The driver loop of lines 37-186 over all tickers: `master_results`
collects exactly the summaries of the symbols that neither raised nor were
empty, in order. -/
def runAll (init : ℚ) (inputs : List (String × FetchResult)) : List SymbolSummary :=
  inputs.filterMap (fun s => processSymbol init s.1 s.2)

/-- Shorthand for building a bar when only `Date`, `Time`, `Close`, `High`
and `Low` matter (`Open` and `Volume` never enter the computation). -/
def mkPt (d t : Nat) (c h l : ℚ) : PricePoint := ⟨d, t, c, h, l, 0, 0⟩

/-- The two-day series of the spec's §8 end-to-end scenario: day 1 is an
upside-follow breakout, day 2 a downside-follow breakout. -/
def exSpec : List PricePoint :=
  [mkPt 1 1 98 100 95, mkPt 1 2 103 105 96, mkPt 1 3 110 104 99,
   mkPt 2 1 48 50 45, mkPt 2 2 41 49 40, mkPt 2 3 42 44 41]

/-- A series whose day 1 is a downside-fake that loses more than the whole
capital (entry 10, close 35, quantity 10 on capital 100), leaving capital
−150, and whose day 2 is an upside breakout at entry 100.  Exercises the
negative-capital path of the fold. -/
def exNegCap : List PricePoint :=
  [mkPt 1 1 11 12 10, mkPt 1 2 35 12 9,
   mkPt 2 1 90 100 90, mkPt 2 2 120 150 95]

/-- Same shape as `exNegCap` (distinct days/prices): day 1 drives capital
to −150, day 2 is an upside breakout at entry 100, so the day-2 quantity is
`int(-150 / 100) = -1` while `floor(-150 / 100) = -2`. -/
def exQty : List PricePoint :=
  [mkPt 3 1 11 12 10, mkPt 3 2 35 12 9,
   mkPt 4 1 91 100 90, mkPt 4 2 121 150 95]

/-- One upside-follow day followed by one single-bar Neutral day: used to
compare the code's win-rate denominator with the spec's
decision-days-only denominator. -/
def exNeutral : List PricePoint :=
  [mkPt 1 1 98 100 95, mkPt 1 2 110 105 96, mkPt 2 1 20 20 18]

/-- A single session whose bars break both the reference high and the
reference low. -/
def exBoth : List PricePoint :=
  [mkPt 1 1 50 100 95, mkPt 1 2 110 105 94]

/-! ### Helper lemmas -/

lemma processDay_elim {cap : ℚ} {d : Nat} {g : List PricePoint} {t : Trade}
    (ht : processDay cap d g = some t) :
    ∃ f l, g.head? = some f ∧ g.getLast? = some l ∧
      t.Date = d ∧ t.Exit = l.Close ∧ t.Capital = cap + t.PnL ∧
      ((∃ p ∈ g, p.High > f.High) →
        t.Entry = some f.High ∧
        t.Quantity = pyInt (cap / f.High) ∧
        t.Trend = (if l.Close > f.High then Trend.upsideFollow else Trend.upsideFake) ∧
        t.PnL = (l.Close - f.High) * (t.Quantity : ℚ)) ∧
      (¬ (∃ p ∈ g, p.High > f.High) → (∃ p ∈ g, p.Low < f.Low) →
        t.Entry = some f.Low ∧
        t.Quantity = pyInt (cap / f.Low) ∧
        t.Trend = (if l.Close < f.Low then Trend.downsideFollow else Trend.downsideFake) ∧
        t.PnL = (f.Low - l.Close) * (t.Quantity : ℚ)) ∧
      (¬ (∃ p ∈ g, p.High > f.High) → ¬ (∃ p ∈ g, p.Low < f.Low) →
        t.Entry = none ∧ t.Quantity = 0 ∧ t.Trend = Trend.neutral ∧ t.PnL = 0) := by
  rcases hh : g.head? with _ | f
  · unfold processDay at ht
    rw [hh] at ht
    cases ht
  rcases hl : g.getLast? with _ | l
  · unfold processDay at ht
    rw [hh, hl] at ht
    cases ht
  refine ⟨f, l, rfl, rfl, ?_⟩
  unfold processDay at ht
  rw [hh, hl] at ht
  dsimp only at ht
  by_cases hup : ∃ p ∈ g, p.High > f.High
  · rw [if_pos hup] at ht
    injection ht with ht
    subst ht
    refine ⟨rfl, rfl, rfl, ?_, ?_, ?_⟩
    · intro _
      exact ⟨rfl, rfl, rfl, rfl⟩
    · intro hnup
      exact absurd hup hnup
    · intro hnup
      exact absurd hup hnup
  · rw [if_neg hup] at ht
    by_cases hdown : ∃ p ∈ g, p.Low < f.Low
    · rw [if_pos hdown] at ht
      injection ht with ht
      subst ht
      refine ⟨rfl, rfl, rfl, ?_, ?_, ?_⟩
      · intro h
        exact absurd h hup
      · intro _ _
        exact ⟨rfl, rfl, rfl, rfl⟩
      · intro _ hnd
        exact absurd hdown hnd
    · rw [if_neg hdown] at ht
      injection ht with ht
      subst ht
      refine ⟨rfl, rfl, by ring, ?_, ?_, ?_⟩
      · intro h
        exact absurd h hup
      · intro _ h
        exact absurd h hdown
      · intro _ _
        exact ⟨rfl, rfl, rfl, rfl⟩

lemma processDay_date {cap : ℚ} {d : Nat} {g : List PricePoint} {t : Trade}
    (ht : processDay cap d g = some t) : t.Date = d := by
  obtain ⟨f, l, -, -, hd, -⟩ := processDay_elim ht
  exact hd

lemma processDay_capital {cap : ℚ} {d : Nat} {g : List PricePoint} {t : Trade}
    (ht : processDay cap d g = some t) : t.Capital = cap + t.PnL := by
  obtain ⟨f, l, -, -, -, -, hc, -⟩ := processDay_elim ht
  exact hc

lemma capBefore_cons (init : ℚ) (t0 : Trade) (rest : List Trade) (j : Nat)
    (hj : j < rest.length) :
    capBefore init (t0 :: rest) (j + 1) = capBefore t0.Capital rest j := by
  cases j with
  | zero => simp [capBefore]
  | succ k =>
    have hk : k < rest.length := Nat.lt_of_succ_lt hj
    simp only [capBefore, List.getElem?_cons_succ, List.getElem?_eq_getElem hk]

lemma simFold_get {data : List PricePoint} :
    ∀ {ds : List Nat} {cap : ℚ} {i : Nat} {t : Trade},
      ((simFold data cap ds).1)[i]? = some t →
      processDay (capBefore cap (simFold data cap ds).1 i) t.Date (dayGroup data t.Date) = some t := by
  intro ds
  induction ds with
  | nil =>
    intro cap i t h
    simp [simFold] at h
  | cons d ds ih =>
    intro cap i t h
    rcases hpd : processDay cap d (dayGroup data d) with _ | t0
    · rw [simFold, hpd] at h ⊢
      exact ih h
    · rw [simFold, hpd] at h ⊢
      dsimp only at h ⊢
      cases i with
      | zero =>
        simp only [List.getElem?_cons_zero, Option.some.injEq] at h
        subst h
        have hd := processDay_date hpd
        simpa [capBefore, hd] using hpd
      | succ j =>
        simp only [List.getElem?_cons_succ] at h
        have hj : j < (simFold data t0.Capital ds).1.length :=
          (List.getElem?_eq_some.mp h).1
        rw [capBefore_cons cap t0 _ j hj]
        exact ih h

lemma trades_step {data : List PricePoint} {init : ℚ} {i : Nat} {t : Trade}
    (h : (trades data init)[i]? = some t) :
    processDay (capBefore init (trades data init) i) t.Date (dayGroup data t.Date) = some t := by
  simp only [trades] at h ⊢
  exact simFold_get h

lemma simFold_snd (data : List PricePoint) :
    ∀ (ds : List Nat) (cap : ℚ),
      (simFold data cap ds).2 =
        (((simFold data cap ds).1.getLast?).map (fun t => t.Capital)).getD cap := by
  intro ds
  induction ds with
  | nil => intro cap; simp [simFold]
  | cons d ds ih =>
    intro cap
    rcases hpd : processDay cap d (dayGroup data d) with _ | t0
    · rw [simFold, hpd]
      exact ih cap
    · rw [simFold, hpd]
      dsimp only
      rcases hrest : (simFold data t0.Capital ds).1 with _ | ⟨r, rs⟩
      · have h2 := ih t0.Capital
        rw [hrest] at h2
        simpa using h2
      · have h2 := ih t0.Capital
        rw [hrest] at h2
        rw [h2, List.getLast?_cons_cons]
        rcases List.getLast?_eq_getLast (r :: rs) (by simp) with h3
        simp [h3]

lemma totalTrades_partition (ts : List Trade) :
    totalTrades ts =
      countTrend ts Trend.upsideFollow + countTrend ts Trend.downsideFollow +
      countTrend ts Trend.upsideFake + countTrend ts Trend.downsideFake +
      countTrend ts Trend.neutral := by
  induction ts with
  | nil => simp [totalTrades, countTrend]
  | cons t ts ih =>
    rcases ht : t.Trend <;>
      simp only [totalTrades, countTrend, List.filter_cons, ht, List.length_cons] at ih ⊢ <;>
      simp <;> omega

lemma pyInt_eq_floor {q : ℚ} (h : 0 ≤ q) : pyInt q = ⌊q⌋ := by
  rw [pyInt, Int.tdiv_eq_ediv (Rat.num_nonneg.mpr h) (Int.natCast_nonneg _), Rat.floor_def]

lemma pyInt_nonneg {q : ℚ} (h : 0 ≤ q) : 0 ≤ pyInt q :=
  Int.tdiv_nonneg (Rat.num_nonneg.mpr h) (Int.natCast_nonneg _)

/-! ### Claim theorems -/

/-- C1: for every input price series and initial capital, every trade of the
capital fold satisfies `CapitalAfter(i) = CapitalAfter(i-1) + PnL(i)`, where
the capital before the first trade is the initial capital. -/
theorem capital_recurrence (data : List PricePoint) (init : ℚ) (i : Nat) (t : Trade)
    (h : (trades data init)[i]? = some t) :
    t.Capital = capBefore init (trades data init) i + t.PnL :=
  processDay_capital (trades_step h)

/-- Trade 0 of the spec's §8 scenario. -/
def tSpec0 : Trade := ⟨1, Trend.upsideFollow, some 100, 110, 1000, 10000, 110000⟩

/-- Trade 1 of the spec's §8 scenario. -/
def tSpec1 : Trade := ⟨2, Trend.downsideFollow, some 45, 42, 2444, 7332, 117332⟩

theorem capital_recurrence_witness :
    tSpec1.Capital = capBefore 100000 (trades exSpec 100000) 1 + tSpec1.PnL :=
  capital_recurrence exSpec 100000 1 tSpec1 (by
    norm_num [trades, simFold, processDay, dayGroup, sessionDates, dedupDates, sortDates,
      insertDate, pyInt, Int.tdiv, mkPt, exSpec, tSpec1])

/-- C2: per-session classification.  If some bar's High exceeds the
reference candle's High, the entry is the reference High, the trend is
Upside Follow exactly when the last close exceeds the entry (else Upside
Fake), and PnL = (LastClose − Entry) · Quantity.  Otherwise, if some bar's
Low undercuts the reference Low, the entry is the reference Low, the trend
is Downside Follow exactly when the last close is below the entry (else
Downside Fake), and PnL = (Entry − LastClose) · Quantity.  Otherwise the
session is Neutral with no entry. -/
theorem classifier_branches (cap : ℚ) (d : Nat) (g : List PricePoint) (f l : PricePoint)
    (t : Trade) (hf : g.head? = some f) (hl : g.getLast? = some l)
    (ht : processDay cap d g = some t) :
    ((∃ p ∈ g, p.High > f.High) →
      t.Entry = some f.High ∧
      t.Trend = (if l.Close > f.High then Trend.upsideFollow else Trend.upsideFake) ∧
      t.PnL = (l.Close - f.High) * (t.Quantity : ℚ)) ∧
    (¬ (∃ p ∈ g, p.High > f.High) → (∃ p ∈ g, p.Low < f.Low) →
      t.Entry = some f.Low ∧
      t.Trend = (if l.Close < f.Low then Trend.downsideFollow else Trend.downsideFake) ∧
      t.PnL = (f.Low - l.Close) * (t.Quantity : ℚ)) ∧
    (¬ (∃ p ∈ g, p.High > f.High) → ¬ (∃ p ∈ g, p.Low < f.Low) →
      t.Trend = Trend.neutral ∧ t.Entry = none) := by
  obtain ⟨f', l', hf', hl', -, -, -, hU, hD, hN⟩ := processDay_elim ht
  rw [hf] at hf'
  rw [hl] at hl'
  injection hf' with hf'
  injection hl' with hl'
  subst hf'
  subst hl'
  refine ⟨fun h => ?_, fun h1 h2 => ?_, fun h1 h2 => ?_⟩
  · obtain ⟨he, -, htr, hp⟩ := hU h
    exact ⟨he, htr, hp⟩
  · obtain ⟨he, -, htr, hp⟩ := hD h1 h2
    exact ⟨he, htr, hp⟩
  · obtain ⟨he, -, htr, -⟩ := hN h1 h2
    exact ⟨htr, he⟩

theorem classifier_branches_witness :
    ∃ t : Trade, processDay 100000 1 (dayGroup exSpec 1) = some t ∧
      t.Entry = some 100 ∧ t.Trend = Trend.upsideFollow ∧
      t.PnL = (110 - 100) * (t.Quantity : ℚ) := by
  have hf : (dayGroup exSpec 1).head? = some (mkPt 1 1 98 100 95) := by
    norm_num [dayGroup, exSpec, mkPt]
  have hl : (dayGroup exSpec 1).getLast? = some (mkPt 1 3 110 104 99) := by
    norm_num [dayGroup, exSpec, mkPt]
  have ht : processDay 100000 1 (dayGroup exSpec 1) = some tSpec0 := by
    norm_num [processDay, dayGroup, exSpec, mkPt, pyInt, Int.tdiv, tSpec0]
  have h := (classifier_branches 100000 1 (dayGroup exSpec 1) (mkPt 1 1 98 100 95)
    (mkPt 1 3 110 104 99) tSpec0 hf hl ht).1 (by
      refine ⟨mkPt 1 2 103 105 96, ?_, ?_⟩
      · norm_num [dayGroup, exSpec, mkPt]
      · norm_num [mkPt])
  refine ⟨tSpec0, ht, h.1, ?_, ?_⟩
  · rw [h.2.1]
    norm_num [mkPt, tSpec0]
  · have := h.2.2
    norm_num [mkPt, tSpec0] at this ⊢

/-- C3: a session whose bars break both the reference high and the
reference low classifies as an Upside trend (Follow or Fake), never as a
Downside trend: the upside test of line 97 runs strictly before the
downside test of line 103. -/
theorem upside_priority (cap : ℚ) (d : Nat) (g : List PricePoint) (f l : PricePoint)
    (t : Trade) (hf : g.head? = some f) (hl : g.getLast? = some l)
    (ht : processDay cap d g = some t)
    (hup : ∃ p ∈ g, p.High > f.High) (_hdown : ∃ p ∈ g, p.Low < f.Low) :
    (t.Trend = Trend.upsideFollow ∨ t.Trend = Trend.upsideFake) ∧
    t.Trend ≠ Trend.downsideFollow ∧ t.Trend ≠ Trend.downsideFake ∧
    t.Entry = some f.High := by
  obtain ⟨f', l', hf', hl', -, -, -, hU, -, -⟩ := processDay_elim ht
  rw [hf] at hf'
  rw [hl] at hl'
  injection hf' with hf'
  injection hl' with hl'
  subst hf'
  subst hl'
  obtain ⟨he, -, htr, -⟩ := hU hup
  refine ⟨?_, ?_, ?_, he⟩
  · rw [htr]
    split_ifs <;> simp
  · rw [htr]
    split_ifs <;> simp
  · rw [htr]
    split_ifs <;> simp

theorem upside_priority_witness :
    ∃ t : Trade, processDay 1000 1 exBoth = some t ∧
      (t.Trend = Trend.upsideFollow ∨ t.Trend = Trend.upsideFake) ∧
      t.Trend ≠ Trend.downsideFollow ∧ t.Trend ≠ Trend.downsideFake ∧
      t.Entry = some (mkPt 1 1 50 100 95).High := by
  have ht : processDay 1000 1 exBoth =
      some ⟨1, Trend.upsideFollow, some 100, 110, 10, 100, 1100⟩ := by
    norm_num [processDay, exBoth, mkPt, pyInt, Int.tdiv]
  refine ⟨_, ht, upside_priority 1000 1 exBoth (mkPt 1 1 50 100 95) (mkPt 1 2 110 105 94)
    _ (by norm_num [exBoth]) (by norm_num [exBoth]) ht ?_ ?_⟩
  · exact ⟨mkPt 1 2 110 105 94, by norm_num [exBoth], by norm_num [mkPt]⟩
  · exact ⟨mkPt 1 2 110 105 94, by norm_num [exBoth], by norm_num [mkPt]⟩

/-- C4 (counterexample): after a losing day the running capital is −150;
on the next day's breakout at entry 100 the code computes
`int(-150 / 100) = -1`, which is negative and differs from
`floor(-150 / 100) = -2`. -/
theorem quantity_floor_nonneg_cex :
    ((trades exQty 100)[1]?).map (fun t => t.Entry) = some (some 100) ∧
    capBefore 100 (trades exQty 100) 1 = -150 ∧
    ((trades exQty 100)[1]?).map (fun t => t.Quantity) = some (-1) ∧
    ⌊(-150 : ℚ) / 100⌋ = -2 ∧
    ((-1 : Int) ≠ -2 ∧ ¬ (0 ≤ (-1 : Int))) := by
  refine ⟨?_, ?_, ?_, by norm_num, by norm_num, by norm_num⟩
  · norm_num [trades, simFold, processDay, dayGroup, sessionDates, dedupDates, sortDates,
      insertDate, pyInt, Int.tdiv, mkPt, exQty, capBefore]
  · norm_num [trades, simFold, processDay, dayGroup, sessionDates, dedupDates, sortDates,
      insertDate, pyInt, Int.tdiv, mkPt, exQty, capBefore]
  · norm_num [trades, simFold, processDay, dayGroup, sessionDates, dedupDates, sortDates,
      insertDate, pyInt, Int.tdiv, mkPt, exQty, capBefore]
    decide

/-- C4 (amended): when Entry is present, Quantity is the truncation toward
zero of CapitalBefore / Entry — equal to the floor and non-negative
whenever the incoming capital is non-negative and the entry positive, but
negative once capital has gone negative; Quantity is 0 when Entry is
absent. -/
theorem quantity_formula (data : List PricePoint) (init : ℚ) (i : Nat) (t : Trade)
    (h : (trades data init)[i]? = some t) :
    (t.Entry = none → t.Quantity = 0) ∧
    ∀ e : ℚ, t.Entry = some e →
      t.Quantity = pyInt (capBefore init (trades data init) i / e) ∧
      (0 ≤ capBefore init (trades data init) i → 0 < e →
        t.Quantity = ⌊capBefore init (trades data init) i / e⌋ ∧ 0 ≤ t.Quantity) := by
  have hstep := trades_step h
  obtain ⟨f, l, hf, hl, -, -, -, hU, hD, hN⟩ := processDay_elim hstep
  by_cases hup : ∃ p ∈ dayGroup data t.Date, p.High > f.High
  · obtain ⟨he, hq, -, -⟩ := hU hup
    refine ⟨fun h0 => ?_, fun e hee => ?_⟩
    · rw [he] at h0
      cases h0
    · rw [he] at hee
      injection hee with hee
      rw [hee] at hq
      refine ⟨hq, fun hc0 he0 => ?_⟩
      have hnn : 0 ≤ capBefore init (trades data init) i / e := div_nonneg hc0 he0.le
      exact ⟨by rw [hq, pyInt_eq_floor hnn], by rw [hq]; exact pyInt_nonneg hnn⟩
  · by_cases hdn : ∃ p ∈ dayGroup data t.Date, p.Low < f.Low
    · obtain ⟨he, hq, -, -⟩ := hD hup hdn
      refine ⟨fun h0 => ?_, fun e hee => ?_⟩
      · rw [he] at h0
        cases h0
      · rw [he] at hee
        injection hee with hee
        rw [hee] at hq
        refine ⟨hq, fun hc0 he0 => ?_⟩
        have hnn : 0 ≤ capBefore init (trades data init) i / e := div_nonneg hc0 he0.le
        exact ⟨by rw [hq, pyInt_eq_floor hnn], by rw [hq]; exact pyInt_nonneg hnn⟩
    · obtain ⟨he, hq, -, -⟩ := hN hup hdn
      refine ⟨fun _ => hq, fun e hee => ?_⟩
      rw [he] at hee
      cases hee

theorem quantity_formula_witness :
    tSpec0.Quantity = pyInt (capBefore 100000 (trades exSpec 100000) 0 / 100) ∧
    tSpec0.Quantity = ⌊capBefore 100000 (trades exSpec 100000) 0 / 100⌋ ∧
    0 ≤ tSpec0.Quantity := by
  have h := (quantity_formula exSpec 100000 0 tSpec0 (by
    norm_num [trades, simFold, processDay, dayGroup, sessionDates, dedupDates, sortDates,
      insertDate, pyInt, Int.tdiv, mkPt, exSpec, tSpec0])).2 100 (by
    norm_num [tSpec0])
  have h2 := h.2 (by norm_num [capBefore]) (by norm_num)
  exact ⟨h.1, h2.1, h2.2⟩

/-- C5: every nonempty session yields exactly one trade with exactly one of
the five trend labels; Entry is present iff the trend is not Neutral; and a
Neutral trade has zero quantity, zero PnL and leaves the capital
unchanged. -/
theorem session_trend_entry (cap : ℚ) (d : Nat) (g : List PricePoint) (hg : g ≠ []) :
    ∃ t, processDay cap d g = some t ∧
      (t.Trend = Trend.upsideFollow ∨ t.Trend = Trend.upsideFake ∨
       t.Trend = Trend.downsideFollow ∨ t.Trend = Trend.downsideFake ∨
       t.Trend = Trend.neutral) ∧
      (t.Entry = none ↔ t.Trend = Trend.neutral) ∧
      (t.Trend = Trend.neutral → t.Quantity = 0 ∧ t.PnL = 0 ∧ t.Capital = cap) := by
  have hh := List.head?_eq_head hg
  have hl := List.getLast?_eq_getLast g hg
  rcases hres : processDay cap d g with _ | t
  · exfalso
    unfold processDay at hres
    rw [hh, hl] at hres
    dsimp only at hres
    split_ifs at hres
  obtain ⟨f, l, hf, hl', -, -, hcap, hU, hD, hN⟩ := processDay_elim hres
  refine ⟨t, rfl, ?_⟩
  by_cases hup : ∃ p ∈ g, p.High > f.High
  · obtain ⟨he, -, htr, -⟩ := hU hup
    refine ⟨?_, ?_, ?_⟩
    · rw [htr]
      split_ifs <;> simp
    · rw [he, htr]
      split_ifs <;> simp
    · rw [htr]
      split_ifs <;> simp
  · by_cases hdn : ∃ p ∈ g, p.Low < f.Low
    · obtain ⟨he, -, htr, -⟩ := hD hup hdn
      refine ⟨?_, ?_, ?_⟩
      · rw [htr]
        split_ifs <;> simp
      · rw [he, htr]
        split_ifs <;> simp
      · rw [htr]
        split_ifs <;> simp
    · obtain ⟨he, hq, htr, hp⟩ := hN hup hdn
      refine ⟨?_, ?_, ?_⟩
      · rw [htr]
        simp
      · rw [he, htr]
        simp
      · exact fun _ => ⟨hq, hp, by rw [hcap, hp]; ring⟩

theorem session_trend_entry_witness :
    ∃ t, processDay 100000 5 [mkPt 5 1 20 20 18] = some t ∧
      (t.Trend = Trend.upsideFollow ∨ t.Trend = Trend.upsideFake ∨
       t.Trend = Trend.downsideFollow ∨ t.Trend = Trend.downsideFake ∨
       t.Trend = Trend.neutral) ∧
      (t.Entry = none ↔ t.Trend = Trend.neutral) ∧
      (t.Trend = Trend.neutral → t.Quantity = 0 ∧ t.PnL = 0 ∧ t.Capital = 100000) :=
  session_trend_entry 100000 5 [mkPt 5 1 20 20 18] (by simp)

/-- C6: the summarizer's win rate equals
`100 · (UpsideFollow + DownsideFollow) / TotalTrades` whenever there is at
least one trade, and is 0 when there are no trades — the guard of line 128
makes the zero-trade case total instead of a division-by-zero error. -/
theorem winRate_total_guard (ts : List Trade) :
    (0 < totalTrades ts →
      winRate ts = 100 * (followTrades ts : ℚ) / (totalTrades ts : ℚ)) ∧
    (totalTrades ts = 0 → winRate ts = 0) := by
  constructor
  · intro h
    rw [winRate, if_pos h]
    ring
  · intro h
    rw [winRate, if_neg (by omega)]

theorem winRate_total_guard_witness :
    winRate (trades exSpec 100000) = 100 ∧ winRate ([] : List Trade) = 0 := by
  have hts : trades exSpec 100000 = [tSpec0, tSpec1] := by
    norm_num [trades, simFold, processDay, dayGroup, sessionDates, dedupDates, sortDates,
      insertDate, pyInt, Int.tdiv, mkPt, exSpec, tSpec0, tSpec1]
  constructor
  · have h1 := (winRate_total_guard (trades exSpec 100000)).1 (by rw [hts]; decide)
    have hf : followTrades [tSpec0, tSpec1] = 2 := by decide
    have ht2 : totalTrades [tSpec0, tSpec1] = 2 := by decide
    rw [h1, hts, hf, ht2]
    norm_num
  · exact (winRate_total_guard ([] : List Trade)).2 rfl

/-- C7: the reported final capital is the `Capital` of the last trade (the
initial capital when the trade list is empty), and the reported profit is
the final capital minus the initial capital. -/
theorem finalCapital_last_trade (data : List PricePoint) (init : ℚ) :
    finalCapital data init =
      (((trades data init).getLast?).map (fun t => t.Capital)).getD init ∧
    totalProfit data init = finalCapital data init - init :=
  ⟨by rw [finalCapital, trades]; exact simFold_snd data (sessionDates data) init, rfl⟩

/-- C8: per-symbol failures are isolated.  A symbol whose fetch raised, or
whose series is empty, contributes nothing to the master results, and the
remaining symbols are processed exactly as if it were absent. -/
theorem symbol_isolation (init : ℚ) (xs ys : List (String × FetchResult))
    (b : String × FetchResult)
    (hb : b.2 = FetchResult.failed ∨ b.2 = FetchResult.ok []) :
    processSymbol init b.1 b.2 = none ∧
    runAll init (xs ++ b :: ys) = runAll init xs ++ runAll init ys := by
  have hnone : processSymbol init b.1 b.2 = none := by
    rcases hb with h | h <;> rw [h] <;> simp [processSymbol]
  refine ⟨hnone, ?_⟩
  rw [runAll, runAll, runAll, List.filterMap_append]
  simp [List.filterMap_cons, hnone]

theorem symbol_isolation_witness :
    processSymbol 100000 "BAD" FetchResult.failed = none ∧
    runAll 100000 [("GOOD", FetchResult.ok exSpec), ("BAD", FetchResult.failed),
      ("EMPTY", FetchResult.ok [])] =
      runAll 100000 [("GOOD", FetchResult.ok exSpec)] ++
      runAll 100000 [("EMPTY", FetchResult.ok [])] :=
  symbol_isolation 100000 [("GOOD", FetchResult.ok exSpec)]
    [("EMPTY", FetchResult.ok [])] ("BAD", FetchResult.failed) (Or.inl rfl)

/-- The trade log the simulation produces on `exNeutral`. -/
def tsNeutral : List Trade :=
  [⟨1, Trend.upsideFollow, some 100, 110, 1000, 10000, 110000⟩,
   ⟨2, Trend.neutral, none, 20, 0, 0, 110000⟩]

/-- C9 (counterexample): on a series with one Upside Follow day and one
Neutral day the code reports a win rate of 50, not the 100 that a
decision-days-only denominator would give: Neutral days are counted in the
denominator. -/
theorem winRate_neutral_cex :
    countTrend (trades exNeutral 100000) Trend.neutral = 1 ∧
    followTrades (trades exNeutral 100000) = 1 ∧
    winRate (trades exNeutral 100000) = 50 ∧
    winRateDecisionOnly (trades exNeutral 100000) = 100 ∧
    winRate (trades exNeutral 100000) ≠ winRateDecisionOnly (trades exNeutral 100000) := by
  have hts : trades exNeutral 100000 = tsNeutral := by
    norm_num [trades, simFold, processDay, dayGroup, sessionDates, dedupDates, sortDates,
      insertDate, pyInt, Int.tdiv, mkPt, exNeutral, tsNeutral]
  have h1 : countTrend tsNeutral Trend.neutral = 1 := by decide
  have h2 : followTrades tsNeutral = 1 := by decide
  have h3 : totalTrades tsNeutral = 2 := by decide
  have hw : winRate tsNeutral = 50 := by
    rw [winRate, h2, h3]
    norm_num
  have hd : winRateDecisionOnly tsNeutral = 100 := by
    simp only [winRateDecisionOnly, h1, h2, h3]
    norm_num
  rw [hts]
  exact ⟨h1, h2, hw, hd, by rw [hw, hd]; norm_num⟩

/-- C9 (amended): the reported win rate is the percentage of Follow days
out of all trading days — the denominator counts every session, Neutral
(no-decision) days included. -/
theorem winRate_counts_neutral (ts : List Trade) (h : 0 < totalTrades ts) :
    winRate ts = 100 * (followTrades ts : ℚ) /
      ((followTrades ts + countTrend ts Trend.upsideFake +
        countTrend ts Trend.downsideFake + countTrend ts Trend.neutral : Nat) : ℚ) := by
  have hpart : (followTrades ts + countTrend ts Trend.upsideFake +
      countTrend ts Trend.downsideFake + countTrend ts Trend.neutral : Nat) =
      totalTrades ts := by
    rw [totalTrades_partition ts, followTrades]
  rw [hpart, winRate, if_pos h]
  ring

theorem winRate_counts_neutral_witness :
    winRate (trades exNeutral 100000) =
      100 * (followTrades (trades exNeutral 100000) : ℚ) /
      ((followTrades (trades exNeutral 100000) +
        countTrend (trades exNeutral 100000) Trend.upsideFake +
        countTrend (trades exNeutral 100000) Trend.downsideFake +
        countTrend (trades exNeutral 100000) Trend.neutral : Nat) : ℚ) :=
  winRate_counts_neutral (trades exNeutral 100000) (by
    norm_num [trades, simFold, processDay, dayGroup, sessionDates, dedupDates, sortDates,
      insertDate, pyInt, Int.tdiv, mkPt, exNeutral, totalTrades])

/-- C10: capital is not floored at zero.  On `exNegCap` the first day is a
downside breakout whose close far exceeds the entry, the loss exceeds the
incoming capital, `CapitalAfter` goes to −150, and the fold keeps running:
the next day's quantity is computed from the negative capital
(`int(-150/100) = -1`) and the capital keeps compounding from −150. -/
theorem negative_capital_continues :
    ((trades exNegCap 100)[0]?).map (fun t => t.Trend) = some Trend.downsideFake ∧
    ((trades exNegCap 100)[0]?).map (fun t => t.Capital) = some ((-150 : ℚ)) ∧
    capBefore 100 (trades exNegCap 100) 1 = -150 ∧
    ((trades exNegCap 100)[1]?).map (fun t => t.Quantity) = some (pyInt ((-150 : ℚ) / 100)) ∧
    ((trades exNegCap 100)[1]?).map (fun t => t.Capital) = some ((-170 : ℚ)) := by
  have h32 : Int.tdiv 3 2 = 1 := by decide
  have h32n : Int.tdiv (-3) 2 = -1 := by decide
  have hts : trades exNegCap 100 =
      [⟨1, Trend.downsideFake, some 10, 35, 10, -250, -150⟩,
       ⟨2, Trend.upsideFollow, some 100, 120, -1, -20, -170⟩] := by
    norm_num [trades, simFold, processDay, dayGroup, sessionDates, dedupDates, sortDates,
      insertDate, pyInt, mkPt, exNegCap, h32, h32n]
  have hq : pyInt ((-150 : ℚ) / 100) = -1 := by
    norm_num [pyInt, h32, h32n]
  rw [hts, hq]
  refine ⟨by norm_num, by norm_num, by norm_num [capBefore], by norm_num, by norm_num⟩
